import Mathlib

/-!
Verification of the in-memory column read path of the storage engine
(`src/be/src/olap/memory/typed_column_reader.h` and
`src/be/src/olap/memory/column_block.h`): a shallow embedding of the data
model (base blocks, versioned sparse deltas, snapshot readers) and of the
operations `TypedColumnGet`, `TypedColumnReader::get_block`,
`TypedColumnHashcode` and `TypedColumnEquals`, together with theorems about
point lookup / bulk materialization behavior, error propagation and framing.

The element type of a column is abstracted by a type parameter `α` (the
storage type `ST` of the C++ template; the embedding fixes the logical type
`T` equal to `ST`, which is the default template argument and the only
configuration the source supports for typed access — the `T ≠ ST` case only
matters for `TypedColumnHashcode`, where it is carried as an explicit flag).
Machine pointers returned by the C++ (`const void*`, null for a null cell)
are modelled as `Option α`.
-/

namespace DorisMemory

/-- Return status of fallible operations (`Status` in the source): OK or a
memory-allocation failure (the only failure produced in this core, by
`ColumnBlock::alloc`). -/
inductive Status where
  | OK
  | MemoryAllocFailed
deriving DecidableEq

/-- One block of base data for a column (`class ColumnBlock`,
column_block.h lines 27-49): `size` models `_size` (row capacity), `nulls`
models the optional `_nulls` buffer viewed as `bool[]` (`none` when the
buffer is absent, i.e. the C++ buffer is falsy), and `data` models `_data`
viewed as an array of the storage type. -/
structure ColumnBlock (α : Type) where
  size : Nat := 0
  nulls : Option (List Bool) := none
  data : List α := []
deriving DecidableEq

instance {α : Type} : Inhabited (ColumnBlock α) := ⟨{}⟩

/-- `ColumnBlock::is_null(idx)` = `_nulls && _nulls.as<bool>()[idx]`
(column_block.h line 38): false when no null buffer is present. -/
def ColumnBlock.is_null {α : Type} (cb : ColumnBlock α) (idx : Nat) : Bool :=
  match cb.nulls with
  | none => false
  | some ns => ns.getD idx false

/-- `ColumnBlock::alloc(size, esize)` (column_block.h line 36) allocates the
data region for `size` elements and a matching null bitmap, or fails with an
allocation error.  The raw allocator is outside this core, so whether memory
can be obtained is the environment parameter `ok`.  The element size `esize`
is abstracted by the element type `α` and unused.  Buffer contents after a
successful allocation are modelled as default-initialized.
Modelled from the spec: the implementation of `alloc` is not under src/;
spec section 4.2 says it "allocates the data region for capacity elements of
element_size bytes and a matching null bitmap; fails with an allocation
error if memory cannot be obtained". -/
def ColumnBlock.alloc {α : Type} [Inhabited α] (ok : Bool) (size _esize : Nat) :
    Status × ColumnBlock α :=
  if ok then
    (Status.OK, ⟨size, some (List.replicate size false), List.replicate size default⟩)
  else (Status.MemoryAllocFailed, {})

/-- A versioned sparse write batch: `ColumnDelta` together with its
`DeltaIndex`.  The DeltaIndex implementation is not under src/.
Modelled from the spec (section 3): the index is "an ordered list of (global
row id) → (position in delta's parallel arrays) entries, sorted by row id so
that entries for one block form a contiguous sub-range"; `rids` is that
sorted list, and position `i` in `rids` is position `i` in the parallel
`data` / optional `nulls` buffers. -/
structure ColumnDelta (α : Type) where
  rids : List Nat
  data : List α
  nulls : Option (List Bool)
deriving DecidableEq

/-- `DeltaIndex::find_idx(rid)`: the position of `rid` in the index, or the
sentinel npos; `none` models npos.
Modelled from the spec: "find_idx(rid) returns the position or a sentinel
not found (npos)". -/
def ColumnDelta.find_idx {α : Type} (d : ColumnDelta α) (rid : Nat) : Option Nat :=
  d.rids.findIdx? (fun r => r == rid)

/-- `DeltaIndex::block_range(block_id)`: with `rids` sorted, the positions
whose row ids fall in block `bid` are exactly those at index `i` with
`start ≤ i < end` for the two counts below (proved in `block_range_char`).
Modelled from the spec: "block_range(block_id) returns the half-open
[start, end) positions within the index whose row ids fall in that block". -/
def ColumnDelta.block_range {α : Type} (d : ColumnDelta α) (bid : Nat) : Nat × Nat :=
  (d.rids.countP (fun r => decide (r >>> 16 < bid)),
   d.rids.countP (fun r => decide (r >>> 16 ≤ bid)))

/-- `ColumnDelta::contains_block(block_id)`.
Modelled from the spec: "contains_block(block_id) is true iff its range for
that block is non-empty". -/
def ColumnDelta.contains_block {α : Type} (d : ColumnDelta α) (bid : Nat) : Bool :=
  (d.block_range bid).1 != (d.block_range bid).2

/-- The in-block offset stored in the index's data buffer for position `i`
(`poses[i]` in get_block, a `uint16`): the low 16 bits of the row id. -/
def ColumnDelta.pos16 {α : Type} (d : ColumnDelta α) (i : Nat) : Nat :=
  d.rids.getD i 0 &&& 65535

/-- Null flag of the delta at parallel position `pos`:
`pdelta->nulls() && pdelta->nulls().as<bool>()[pos]`
(typed_column_reader.h line 34). -/
def ColumnDelta.isnullAt {α : Type} (d : ColumnDelta α) (pos : Nat) : Bool :=
  match d.nulls with
  | none => false
  | some ns => ns.getD pos false

/-- `TypedColumnReader` (typed_column_reader.h lines 103-205): a snapshot
view holding the column's base block vector (`_column` / `_base` collapse to
the block sequence itself), the bound versions, and the chronological
(oldest-first) vector of applicable deltas.  The `Nullable` template
parameter is passed per operation. -/
structure TypedColumnReader (α : Type) where
  base : List (ColumnBlock α)
  version : Nat := 0
  realVersion : Nat := 0
  deltas : List (ColumnDelta α)
deriving DecidableEq

/-- The delta-scan loop shared by `TypedColumnGet` (lines 29-44) and
`TypedColumnEquals` (lines 75-86): iterate the reader's delta vector from
most recent (last) to oldest (first) and return the first delta, with the
position inside it, whose index contains `rid`.  The recursive call covers
the more-recent suffix and is consulted first, exactly like the C++ loop
`for (ssize_t i = reader._deltas.size() - 1; i >= 0; i--)`. -/
def scanDeltas {α : Type} (ds : List (ColumnDelta α)) (rid : Nat) :
    Option (ColumnDelta α × Nat) :=
  match ds with
  | [] => none
  | d :: rest =>
    match scanDeltas rest rid with
    | some hit => some hit
    | none =>
      match d.find_idx rid with
      | some pos => some (d, pos)
      | none => none

/-- `TypedColumnGet` (typed_column_reader.h lines 27-59).  The C++ returns
`const void*`: `nullptr` for a null cell, otherwise a pointer to the stored
value; `Option α` models that (`none` = nullptr, `some v` = pointer to `v`). -/
def TypedColumnGet {α : Type} [Inhabited α] (Nullable : Bool)
    (reader : TypedColumnReader α) (rid : Nat) : Option α :=
  match scanDeltas reader.deltas rid with
  | some (pdelta, pos) =>
    if Nullable then
      if pdelta.isnullAt pos then none
      else some (pdelta.data.getD pos default)
    else some (pdelta.data.getD pos default)
  | none =>
    let bid := rid >>> 16
    let idx := rid &&& 65535
    let page := reader.base.getD bid default
    if Nullable then
      if page.is_null idx then none
      else some (page.data.getD idx default)
    else some (page.data.getD idx default)

/-- `TypedColumnHashcode` (typed_column_reader.h lines 61-70), byte-level:
`rhs` is the external array as raw bytes, `tsize` is `sizeof(T)`, and
`tSameSt` models `std::is_same<T, ST>::value`.  When the types coincide it
hashes the `sizeof(T)` bytes at element `rhs_idx`; otherwise it is the
documented stub returning 0 (source line 67: "TODO: support other type's
hash"). -/
def fnv_hash64 : List Nat → Nat → Nat
  | [], h => h
  | b :: rest, h => fnv_hash64 rest (((b ^^^ h) * 1099511628211) % 2 ^ 64)

/-- `TypedColumnHashcode` itself; see `fnv_hash64` for the byte conventions.
Modelled from the spec for the hash primitive: `HashUtil::fnv_hash64`
(util/hash_util.hpp) is not under src/; spec section 4.5 calls it "a
well-known 64-bit fingerprint algorithm" over the raw bytes — the 64-bit
FNV loop folding each byte into the running hash, seed 0. -/
def TypedColumnHashcode (tSameSt : Bool) (tsize : Nat) (rhs : List Nat)
    (rhs_idx : Nat) : Nat :=
  if tSameSt then fnv_hash64 ((rhs.drop (rhs_idx * tsize)).take tsize) 0
  else 0

/-- Result of `TypedColumnEquals`: either a boolean comparison result, or the
hard abort `CHECK(false) << "only used for key column"` (lines 80 and 92),
which never returns to the caller. -/
inductive CheckedBool where
  | fatalCheck
  | value (b : Bool)
deriving DecidableEq

/-- `TypedColumnEquals` (typed_column_reader.h lines 72-98): resolve `rid`
through the same newest-to-oldest delta scan as `TypedColumnGet`, then the
base block, and compare the stored value against `rhs[rhs_idx]`; on a
nullable column both resolution paths hit `CHECK(false)`. -/
def TypedColumnEquals {α : Type} [Inhabited α] [DecidableEq α] (Nullable : Bool)
    (reader : TypedColumnReader α) (rid : Nat) (rhs : List α) (rhs_idx : Nat) :
    CheckedBool :=
  let rhs_value := rhs.getD rhs_idx default
  match scanDeltas reader.deltas rid with
  | some (pdelta, pos) =>
    if Nullable then CheckedBool.fatalCheck
    else CheckedBool.value (decide (pdelta.data.getD pos default = rhs_value))
  | none =>
    let bid := rid >>> 16
    let idx := rid &&& 65535
    if Nullable then CheckedBool.fatalCheck
    else CheckedBool.value
      (decide ((reader.base.getD bid default).data.getD idx default = rhs_value))

/-- `ColumnBlockHolder` (spec section 3): either not yet initialized, or a
block reference together with the own flag passed to `init(ptr, own)` —
`own = false` is a non-owning shared reference, `own = true` an owned
materialization target. -/
inductive ColumnBlockHolder (α : Type) where
  | uninit
  | init (cb : ColumnBlock α) (own : Bool)
deriving DecidableEq

/-- The block a holder refers to (junk block if uninitialized). -/
def holderCB {α : Type} : ColumnBlockHolder α → ColumnBlock α
  | ColumnBlockHolder.uninit => {}
  | ColumnBlockHolder.init cb _ => cb

/-- `ColumnBlock::copy_to(dest, nrows, esize)` used at typed_column_reader.h
line 138: copy the first `nrows` rows of this block into the destination.
Modelled from the spec: the implementation is not under src/; section 4.4
says get_block must "copy the full base block's data into it (byte-for-byte,
typed by the storage element type)", copying "exactly the requested row
count" (section 9), and by the equivalence invariant (section 8) the
destination's null-state for those rows must match the source's `is_null`,
so both the data region and (when the destination has one) the null bitmap
receive the source's first `nrows` rows. -/
def ColumnBlock.copy_to {α : Type} [Inhabited α] (src dst : ColumnBlock α)
    (nrows : Nat) : ColumnBlock α :=
  { dst with
    data := ((List.range nrows).map (fun i => src.data.getD i default)) ++
      dst.data.drop nrows
    nulls := dst.nulls.map (fun ns =>
      ((List.range nrows).map (fun i => src.is_null i)) ++ ns.drop nrows) }

/-- The destination write `cb.nulls().as<bool>()[pos] = b` of get_block
(typed_column_reader.h lines 154, 156, 163). -/
def ColumnBlock.writeNull {α : Type} (cb : ColumnBlock α) (pos : Nat) (b : Bool) :
    ColumnBlock α :=
  { cb with nulls := cb.nulls.map (fun ns => ns.set pos b) }

/-- The destination write `cb.data().as<ST>()[pos] = v` of get_block
(typed_column_reader.h lines 157, 164, 169). -/
def ColumnBlock.writeData {α : Type} (cb : ColumnBlock α) (pos : Nat) (v : α) :
    ColumnBlock α :=
  { cb with data := cb.data.set pos v }

/-- One iteration of the per-delta patch loop of `get_block`
(typed_column_reader.h lines 147-171), at index `i` into delta `d`'s
parallel arrays: nullable with a null buffer — a set flag marks the
destination null, an unset flag marks it not-null and copies data; nullable
without a null buffer — the source marks the destination null AND copies
data (lines 161-165); non-nullable — copy data only. -/
def deltaPatchStep {α : Type} [Inhabited α] (Nullable : Bool) (d : ColumnDelta α)
    (cb : ColumnBlock α) (i : Nat) : ColumnBlock α :=
  let pos := d.pos16 i
  if Nullable then
    match d.nulls with
    | some ns =>
      if ns.getD i false then cb.writeNull pos true
      else (cb.writeNull pos false).writeData pos (d.data.getD i default)
    | none =>
      (cb.writeNull pos true).writeData pos (d.data.getD i default)
  else
    cb.writeData pos (d.data.getD i default)

/-- The whole patch pass of one delta over the requested block
(typed_column_reader.h lines 139-172): look up the delta's index range for
`block`; if empty, continue; otherwise apply every position in
[start, end). -/
def applyBlockDelta {α : Type} [Inhabited α] (Nullable : Bool) (block : Nat)
    (cb : ColumnBlock α) (d : ColumnDelta α) : ColumnBlock α :=
  let se := d.block_range block
  if se.2 = se.1 then cb
  else (List.range' se.1 (se.2 - se.1)).foldl (deltaPatchStep Nullable d) cb

/-- `TypedColumnReader::get_block` (typed_column_reader.h lines 118-174),
pure functional form covering the executions in which allocation succeeds
(`get_blockS` below additionally models the allocation-failure path and the
block-object identities): determine whether any delta touches the block; if
none does, hand back a non-owning reference to the base block; otherwise
secure an owned block of sufficient capacity, copy the base block into it
and fold every delta over it in chronological (vector) order. -/
def get_block {α : Type} [Inhabited α] (Nullable : Bool)
    (reader : TypedColumnReader α) (nrows block : Nat)
    (cbh : ColumnBlockHolder α) : Status × ColumnBlockHolder α :=
  let base_only := !(reader.deltas.any (fun d => d.contains_block block))
  let page := reader.base.getD block default
  if base_only then (Status.OK, ColumnBlockHolder.init page false)
  else
    let cb0 :=
      match cbh with
      | ColumnBlockHolder.init cb true =>
        if cb.size < nrows then (ColumnBlock.alloc (α := α) true nrows 1).2 else cb
      | _ => (ColumnBlock.alloc (α := α) true nrows 1).2
    let cb1 := page.copy_to cb0 nrows
    (Status.OK,
     ColumnBlockHolder.init (reader.deltas.foldl (applyBlockDelta Nullable block) cb1) true)

/-- The logical (value, null-state) content of row `idx` of a block as its
consumers read it, mirroring the two branches of `TypedColumnGet`: for a
nullable column the null flag takes precedence over the data byte; a
non-nullable column never consults the bitmap. -/
def blockCell {α : Type} [Inhabited α] (Nullable : Bool) (cb : ColumnBlock α)
    (idx : Nat) : Option α :=
  if Nullable then
    if cb.is_null idx then none else some (cb.data.getD idx default)
  else some (cb.data.getD idx default)

/-- The cell content that `get_block`'s patch loop leaves at a row written by
parallel position `i` of delta `d` (typed_column_reader.h lines 147-171):
nullable with a null buffer — `none` when the flag is set, else the stored
value; nullable without a null buffer — the code marks the row null
(line 163), so `none`; non-nullable — the stored value. -/
def deltaPatchCell {α : Type} [Inhabited α] (Nullable : Bool) (d : ColumnDelta α)
    (i : Nat) : Option α :=
  if Nullable then
    match d.nulls with
    | some ns => if ns.getD i false then none else some (d.data.getD i default)
    | none => none
  else some (d.data.getD i default)

/-- A heap of `ColumnBlock` objects addressed by id, with a fresh-id counter;
used to state which block objects `get_block` allocates and writes (sharing
and framing), which the pure value model cannot distinguish. -/
structure BlockStore (α : Type) where
  blocks : Nat → ColumnBlock α
  next : Nat

/-- Overwrite the block object at `id`. -/
def BlockStore.write {α : Type} (σ : BlockStore α) (id : Nat) (cb : ColumnBlock α) :
    BlockStore α :=
  ⟨fun j => if j = id then cb else σ.blocks j, σ.next⟩

/-- Holder over the store: the C++ holder's (pointer, own) pair, with the
pointer as a block id. -/
inductive HolderS where
  | uninit
  | init (id : Nat) (own : Bool)
deriving DecidableEq

/-- Reader over the store: `_base` holds block ids into a `BlockStore`. -/
structure ReaderS (α : Type) where
  base : List Nat
  deltas : List (ColumnDelta α)

/-- The allocation sequence of get_block's owned path
(typed_column_reader.h lines 133-135):
`cbh->release(); cbh->init(new ColumnBlock(), true); cbh->get()->alloc(nrows, sizeof(T));`
— a fresh block object is created and `alloc` runs on it.  Faithful to the
source, the `Status` returned by `alloc` is DISCARDED: line 135 is a bare
expression statement, with no RETURN_IF_ERROR around it. -/
def allocFresh {α : Type} [Inhabited α] (σ : BlockStore α) (ok : Bool) (nrows : Nat) :
    Nat × BlockStore α :=
  let st_blk := ColumnBlock.alloc (α := α) ok nrows 1
  (σ.next, ⟨fun j => if j = σ.next then st_blk.2 else σ.blocks j, σ.next + 1⟩)

/-- `TypedColumnReader::get_block` (typed_column_reader.h lines 118-174) in
store-passing form: identical control flow to `get_block`, but block objects
live in a `BlockStore` so that sharing (which object the holder points to)
and framing (which objects are written) are observable, and allocation may
fail (`allocOk`).  Returns the status, the resulting holder and the
resulting store. -/
def get_blockS {α : Type} [Inhabited α] (Nullable : Bool) (r : ReaderS α)
    (σ : BlockStore α) (nrows block : Nat) (cbh : HolderS) (allocOk : Bool) :
    Status × HolderS × BlockStore α :=
  let base_only := !(r.deltas.any (fun d => d.contains_block block))
  let pageId := r.base.getD block 0
  if base_only then (Status.OK, HolderS.init pageId false, σ)
  else
    let idStore :=
      match cbh with
      | HolderS.init id true =>
        if (σ.blocks id).size < nrows then allocFresh σ allocOk nrows else (id, σ)
      | _ => allocFresh σ allocOk nrows
    let cbId := idStore.1
    let σ1 := idStore.2
    let σ2 := σ1.write cbId ((σ1.blocks pageId).copy_to (σ1.blocks cbId) nrows)
    let σ3 := r.deltas.foldl
      (fun σ d => σ.write cbId (applyBlockDelta Nullable block (σ.blocks cbId) d)) σ2
    (Status.OK, HolderS.init cbId true, σ3)

/-- Point lookup as the specification words it (section 4.3), written from
the spec's sentences — not from the code — for the refinement claim about
`TypedColumnGet`: decompose `bid = rid >> 16`, `idx = rid & 0xffff`; "walk
the reader's delta vector from most recent to oldest; the first delta whose
index contains rid determines the result — if the column is nullable and
that position's null flag is set, the result is null; otherwise the result
is a pointer to that position's stored value.  If no delta contains rid,
fall back to the base block at bid: result is null if the block's null
bitmap marks idx, else a pointer into the block's data at idx." -/
def specGet {α : Type} [Inhabited α] (Nullable : Bool)
    (reader : TypedColumnReader α) (rid : Nat) : Option α :=
  let bid := rid >>> 16
  let idx := rid &&& 65535
  match reader.deltas.reverse.find? (fun d => (d.find_idx rid).isSome) with
  | some d =>
    match d.find_idx rid with
    | some pos =>
      if Nullable && d.isnullAt pos then none else some (d.data.getD pos default)
    | none => none
  | none =>
    let page := reader.base.getD bid default
    if page.is_null idx then none else some (page.data.getD idx default)

/-- Well-formedness of a delta, from the spec's data model (section 3): the
index is an ordered list "sorted by row id" (strictly, so row ids are unique
within one delta), and the data / optional null buffers are parallel to it. -/
def DeltaWF {α : Type} (d : ColumnDelta α) : Prop :=
  List.Pairwise (· < ·) d.rids ∧ d.data.length = d.rids.length ∧
    (match d.nulls with
     | none => True
     | some ns => ns.length = d.rids.length)

/-- Well-formedness of an allocated block (spec section 4.2): the data
region holds `size` elements and the matching null bitmap is present with
`size` entries. -/
def BlockWF {α : Type} (cb : ColumnBlock α) : Prop :=
  cb.data.length = cb.size ∧
    (match cb.nulls with
     | none => False
     | some ns => ns.length = cb.size)

/-- Precondition on the caller-supplied holder of `get_block`: if it already
carries an owned block (the reuse path of lines 131-136), that block came
from a previous allocation and is well-formed. -/
def HolderWF {α : Type} : ColumnBlockHolder α → Prop
  | ColumnBlockHolder.init cb true => BlockWF cb
  | _ => True

/-! Theorems. -/

lemma shiftRight16_eq_div (n : Nat) : n >>> 16 = n / 65536 := by
  rw [Nat.shiftRight_eq_div_pow]

lemma and65535_eq_mod (n : Nat) : n &&& 65535 = n % 65536 := by
  have h := Nat.and_pow_two_sub_one_eq_mod n 16
  norm_num at h
  exact h

lemma eq_of_hi16_lo16 {x y : Nat} (hhi : x >>> 16 = y >>> 16)
    (hlo : x &&& 65535 = y &&& 65535) : x = y := by
  rw [shiftRight16_eq_div, shiftRight16_eq_div] at hhi
  rw [and65535_eq_mod, and65535_eq_mod] at hlo
  have hx := Nat.div_add_mod x 65536
  have hy := Nat.div_add_mod y 65536
  omega

lemma fnv_hash64_eq_foldl (l : List Nat) (h : Nat) :
    fnv_hash64 l h =
      l.foldl (fun h b => ((b ^^^ h) * 1099511628211) % 2 ^ 64) h := by
  induction l generalizing h with
  | nil => rfl
  | cons b rest ih => simp [fnv_hash64, List.foldl_cons, ih]

/-- Claim C7: calling `equals` on a nullable column hits the hard internal
check `CHECK(false) << "only used for key column"` — a fatal abort, not a
recoverable return — on every input, whether the row is resolved through a
delta or through the base block. -/
theorem equals_nullable_fatal {α : Type} [Inhabited α] [DecidableEq α]
    (reader : TypedColumnReader α) (rid : Nat) (rhs : List α) (rhs_idx : Nat) :
    TypedColumnEquals true reader rid rhs rhs_idx = CheckedBool.fatalCheck := by
  unfold TypedColumnEquals
  cases h : scanDeltas reader.deltas rid with
  | none => simp
  | some hit => obtain ⟨d, pos⟩ := hit; simp

/-- Witness for C7 at a concrete reader with one delta covering the row. -/
theorem equals_nullable_fatal_w :
    TypedColumnEquals (α := Int) true ⟨[⟨1, some [false], [10]⟩], 1, 1,
      [⟨[0], [25], some [false]⟩]⟩ 0 [25] 0 = CheckedBool.fatalCheck :=
  equals_nullable_fatal ⟨[⟨1, some [false], [10]⟩], 1, 1,
    [⟨[0], [25], some [false]⟩]⟩ 0 [25] 0

/-- Claim C8: on a non-nullable column, `equals(rid, rhs, rhs_idx)` resolves
the value at `rid` through the same newest-to-oldest delta scan and
base-block fallback as `get`, and its boolean result agrees with comparing
the (always non-null) result of `get(rid)` against `rhs[rhs_idx]` under
typed equality. -/
theorem equals_agrees_with_get {α : Type} [Inhabited α] [DecidableEq α]
    (reader : TypedColumnReader α) (rid : Nat) (rhs : List α) (rhs_idx : Nat) :
    TypedColumnEquals false reader rid rhs rhs_idx =
      CheckedBool.value
        (decide (TypedColumnGet false reader rid = some (rhs.getD rhs_idx default))) := by
  unfold TypedColumnEquals TypedColumnGet
  cases h : scanDeltas reader.deltas rid with
  | none => simp
  | some hit => obtain ⟨d, pos⟩ := hit; simp

/-- Witness for C8: concrete non-nullable key column, matching value. -/
theorem equals_agrees_with_get_w :
    TypedColumnEquals (α := Int) false ⟨[⟨2, none, [10, 7]⟩], 1, 1, []⟩ 1 [7] 0 =
      CheckedBool.value
        (decide (TypedColumnGet (α := Int) false ⟨[⟨2, none, [10, 7]⟩], 1, 1, []⟩ 1 =
          some (List.getD [7] 0 default))) :=
  equals_agrees_with_get ⟨[⟨2, none, [10, 7]⟩], 1, 1, []⟩ 1 [7] 0

/-- Claim C9: `hashcode` is a pure function of the `sizeof(T)` raw bytes at
`rhs[rhs_idx]`: when the logical and storage types coincide it is exactly
the 64-bit FNV fold over that byte window (so equal windows give equal
hashes on every call), and when they differ it is the constant 0. -/
theorem hashcode_fnv_of_bytes :
    (∀ (tsize : Nat) (rhs : List Nat) (i : Nat),
      TypedColumnHashcode true tsize rhs i =
        ((rhs.drop (i * tsize)).take tsize).foldl
          (fun h b => ((b ^^^ h) * 1099511628211) % 2 ^ 64) 0) ∧
    (∀ (tsize : Nat) (r1 r2 : List Nat) (i1 i2 : Nat),
      (r1.drop (i1 * tsize)).take tsize = (r2.drop (i2 * tsize)).take tsize →
      TypedColumnHashcode true tsize r1 i1 = TypedColumnHashcode true tsize r2 i2) ∧
    (∀ (tsize : Nat) (rhs : List Nat) (i : Nat),
      TypedColumnHashcode false tsize rhs i = 0) := by
  refine ⟨fun tsize rhs i => ?_, fun tsize r1 r2 i1 i2 hw => ?_, fun tsize rhs i => rfl⟩
  · simp [TypedColumnHashcode, fnv_hash64_eq_foldl]
  · simp [TypedColumnHashcode, hw]

/-- Witness for C9: two arrays exposing the same two-byte window at
different offsets hash identically. -/
theorem hashcode_fnv_of_bytes_w :
    TypedColumnHashcode true 2 [1, 2, 3] 0 = TypedColumnHashcode true 2 [9, 9, 1, 2] 1 :=
  hashcode_fnv_of_bytes.2.1 2 [1, 2, 3] [9, 9, 1, 2] 0 1 (by decide)

/-- Claim C1 (failing-input evaluation): with a nullable column, base row 0
holding 10 (not null), and a single delta without a null buffer setting
row 0 to 25, the point lookup returns the value 25 while the block
materialization of the same row yields null — `get` and `get_block`
disagree, breaking the equivalence invariant (root cause: get_block line 163
sets the destination null flag to true for a delta without a null buffer,
while TypedColumnGet lines 34-41 treat such a delta row as not null). -/
theorem get_vs_get_block_divergence :
    TypedColumnGet (α := Int) true
      ⟨[⟨1, some [false], [10]⟩], 1, 1, [⟨[0], [25], none⟩]⟩ 0 = some 25 ∧
    blockCell true
      (holderCB (get_block (α := Int) true
        ⟨[⟨1, some [false], [10]⟩], 1, 1, [⟨[0], [25], none⟩]⟩ 1 0
        ColumnBlockHolder.uninit).2) 0 = none := by
  constructor
  · decide
  · decide

/-- Claim C2 (failing-input evaluation): in `get_block` on a nullable column,
a delta with no null buffer has its rows marked NULL in the materialized
block — the destination null flag IS set (line 163 writes true) even though
the data value is also copied; the claim (and the spec, which matches
TypedColumnGet) says the flag is not set. -/
theorem get_block_no_nulls_delta_sets_flag :
    (holderCB (get_block (α := Int) true
      ⟨[⟨1, some [false], [10]⟩], 1, 1, [⟨[0], [25], none⟩]⟩ 1 0
      ColumnBlockHolder.uninit).2).is_null 0 = true ∧
    (holderCB (get_block (α := Int) true
      ⟨[⟨1, some [false], [10]⟩], 1, 1, [⟨[0], [25], none⟩]⟩ 1 0
      ColumnBlockHolder.uninit).2).data.getD 0 0 = 25 := by
  constructor
  · decide
  · decide

/-- Claim C6 (failing-input evaluation): `ColumnBlock::alloc` does surface an
allocation failure as a status, but `get_block` DISCARDS that status
(typed_column_reader.h line 135 is a bare expression statement) and returns
OK: with one delta touching block 0, an uninitialized holder and a failing
allocator, the status returned by get_block is OK, not the allocation
error. -/
theorem get_block_drops_alloc_failure :
    (ColumnBlock.alloc (α := Int) false 1 4).1 = Status.MemoryAllocFailed ∧
    (get_blockS (α := Int) false ⟨[0], [⟨[0], [25], none⟩]⟩
      ⟨fun _ => ⟨1, none, [10]⟩, 1⟩ 1 0 HolderS.uninit false).1 = Status.OK := by
  constructor
  · rfl
  · rfl

/-- Claim C5: when no delta in the reader's vector contains the requested
block, `get_block` hands back a non-owning shared reference to the existing
base block (`cbh->init(page.get(), false)`) with status OK, and the block
store is untouched: no allocation and no copy of any buffer happens. -/
theorem get_block_zero_copy {α : Type} [Inhabited α] (Nullable : Bool)
    (r : ReaderS α) (σ : BlockStore α) (nrows block : Nat) (cbh : HolderS)
    (allocOk : Bool) (h : ∀ d ∈ r.deltas, d.contains_block block = false) :
    get_blockS Nullable r σ nrows block cbh allocOk =
      (Status.OK, HolderS.init (r.base.getD block 0) false, σ) := by
  have hany : r.deltas.any (fun d => d.contains_block block) = false := by
    simp only [List.any_eq_false]
    intro d hd
    simp [h d hd]
  unfold get_blockS
  simp [hany]

/-- Witness for C5: one delta is present but touches only block 1; asking
for block 0 shares base block id 5 and leaves the store alone. -/
theorem get_block_zero_copy_w :
    get_blockS (α := Int) true ⟨[5], [⟨[65536], [7], none⟩]⟩
      ⟨fun _ => ⟨1, none, [10]⟩, 9⟩ 4 0 HolderS.uninit true =
      (Status.OK, HolderS.init 5 false, ⟨fun _ => ⟨1, none, [10]⟩, 9⟩) :=
  get_block_zero_copy true ⟨[5], [⟨[65536], [7], none⟩]⟩
    ⟨fun _ => ⟨1, none, [10]⟩, 9⟩ 4 0 HolderS.uninit true (by decide)

lemma write_blocks_ne {α : Type} (σ : BlockStore α) (cbId id : Nat)
    (cb : ColumnBlock α) (h : id ≠ cbId) :
    (σ.write cbId cb).blocks id = σ.blocks id := by
  simp [BlockStore.write, h]

lemma foldl_write_frame {α : Type} [Inhabited α] (Nullable : Bool)
    (block cbId id : Nat) (h : id ≠ cbId) (L : List (ColumnDelta α)) :
    ∀ σ : BlockStore α,
      (L.foldl (fun σ d =>
        σ.write cbId (applyBlockDelta Nullable block (σ.blocks cbId) d)) σ).blocks id =
        σ.blocks id := by
  induction L with
  | nil => intro σ; rfl
  | cons d rest ih =>
    intro σ
    rw [List.foldl_cons, ih]
    exact write_blocks_ne _ _ _ _ h

lemma allocFresh_blocks_lt {α : Type} [Inhabited α] (σ : BlockStore α)
    (ok : Bool) (nrows id : Nat) (h : id < σ.next) :
    ((allocFresh σ ok nrows).2).blocks id = σ.blocks id := by
  have : id ≠ σ.next := by omega
  simp [allocFresh, this]

/-- Claim C10: `get_block` never mutates the base layer.  Provided the
base block ids are existing store addresses (below the fresh-id counter)
and a caller-owned holder block is not aliased with a base block (it owns
it), every base block object is bit-identical before and after any call to
`get_block`: in the patched path all writes go to the caller-owned or
freshly allocated block, never to the shared base block. -/
theorem get_block_preserves_base {α : Type} [Inhabited α] (Nullable : Bool)
    (r : ReaderS α) (σ : BlockStore α) (nrows block : Nat) (cbh : HolderS)
    (allocOk : Bool) (hfresh : ∀ id ∈ r.base, id < σ.next)
    (hodisj : ∀ id, cbh = HolderS.init id true → id ∉ r.base) :
    ∀ id ∈ r.base,
      ((get_blockS Nullable r σ nrows block cbh allocOk).2.2).blocks id = σ.blocks id := by
  intro id hid
  unfold get_blockS
  by_cases hB : r.deltas.any (fun d => d.contains_block block) = true
  · simp only [hB, Bool.not_true, Bool.false_eq_true, if_false]
    have hlt : id < σ.next := hfresh id hid
    have hne_next : id ≠ σ.next := by omega
    cases cbh with
    | uninit =>
      have hfst : (allocFresh σ allocOk nrows).1 = σ.next := rfl
      simp only [hfst]
      rw [foldl_write_frame Nullable block _ id hne_next,
        write_blocks_ne _ _ _ _ hne_next, allocFresh_blocks_lt _ _ _ _ hlt]
    | init id0 own0 =>
      cases own0 with
      | false =>
        have hfst : (allocFresh σ allocOk nrows).1 = σ.next := rfl
        simp only [hfst]
        rw [foldl_write_frame Nullable block _ id hne_next,
          write_blocks_ne _ _ _ _ hne_next, allocFresh_blocks_lt _ _ _ _ hlt]
      | true =>
        have hne0 : id ≠ id0 := by
          intro hcontra
          exact hodisj id0 rfl (hcontra ▸ hid)
        by_cases hsz : (σ.blocks id0).size < nrows
        · have hfst : (allocFresh σ allocOk nrows).1 = σ.next := rfl
          simp only [hsz, if_true, hfst]
          rw [foldl_write_frame Nullable block _ id hne_next,
            write_blocks_ne _ _ _ _ hne_next, allocFresh_blocks_lt _ _ _ _ hlt]
        · simp only [hsz, if_false]
          rw [foldl_write_frame Nullable block _ id hne0,
            write_blocks_ne _ _ _ _ hne0]
  · simp only [Bool.not_eq_true] at hB
    simp [hB]

/-- Witness for C10: block 0 (store id 0) is patched by one delta; the base
object at id 0 is unchanged afterwards. -/
theorem get_block_preserves_base_w :
    ((get_blockS (α := Int) true ⟨[0], [⟨[0], [25], none⟩]⟩
      ⟨fun _ => ⟨1, some [false], [10]⟩, 1⟩ 1 0 HolderS.uninit true).2.2).blocks 0 =
      (⟨fun _ => ⟨1, some [false], [10]⟩, 1⟩ : BlockStore Int).blocks 0 :=
  get_block_preserves_base true ⟨[0], [⟨[0], [25], none⟩]⟩
    ⟨fun _ => ⟨1, some [false], [10]⟩, 1⟩ 1 0 HolderS.uninit true
    (by decide) (by intro id h; cases h) 0 (by decide)

lemma scanDeltas_eq_reverse_find {α : Type} (ds : List (ColumnDelta α)) (rid : Nat) :
    scanDeltas ds rid =
      (ds.reverse.find? (fun d => (d.find_idx rid).isSome)).bind
        (fun d => (d.find_idx rid).map (fun pos => (d, pos))) := by
  induction ds with
  | nil => rfl
  | cons d rest ih =>
    rw [scanDeltas, List.reverse_cons, List.find?_append]
    cases hf : rest.reverse.find? (fun d => (d.find_idx rid).isSome) with
    | some d0 =>
      have hP := List.find?_some hf
      cases hfi : d0.find_idx rid with
      | none => simp [hfi] at hP
      | some pos0 =>
        rw [ih, hf]
        simp [hfi]
    | none =>
      rw [ih, hf]
      cases hfi : d.find_idx rid with
      | some pos => simp [List.find?_cons, hfi]
      | none => simp [List.find?_cons, hfi]

/-- Claim C3: `TypedColumnGet` computes exactly the visibility rule stated by
the spec (`specGet`, written from the spec's sentences): newest-to-oldest
delta scan, the first delta containing `rid` decides (null iff nullable and
its flag is set), otherwise base-block fallback deciding null by the block's
bitmap at `rid & 0xffff`.  The hypothesis is the data-model invariant that
makes the spec's unguarded base sentence meaningful: a non-nullable column
configures no null bitmap on its base blocks (spec sections 4.2 and 8,
"nullability is opt-in", "a non-nullable column's is_null is always
false"). -/
theorem get_refines_spec {α : Type} [Inhabited α] (Nullable : Bool)
    (reader : TypedColumnReader α) (rid : Nat)
    (hreal : Nullable = false → ∀ cb ∈ reader.base, cb.nulls = none) :
    TypedColumnGet Nullable reader rid = specGet Nullable reader rid := by
  unfold TypedColumnGet specGet
  rw [scanDeltas_eq_reverse_find]
  cases hf : reader.deltas.reverse.find? (fun d => (d.find_idx rid).isSome) with
  | some d =>
    have hP := List.find?_some hf
    cases hfi : d.find_idx rid with
    | none => simp [hfi] at hP
    | some pos => cases Nullable <;> simp [hfi]
  | none =>
    cases hN : Nullable with
    | true => simp
    | false =>
      have hnn : (reader.base[rid >>> 16]?.getD default).is_null (rid &&& 65535) = false := by
        cases hq : reader.base[rid >>> 16]? with
        | none => rfl
        | some cb =>
          have hmem : cb ∈ reader.base := List.getElem?_mem hq
          have hno : cb.nulls = none := hreal hN cb hmem
          simp [ColumnBlock.is_null, hno]
      simp [List.getD_eq_getElem?_getD, hnn]

/-- Witness for C3 on a nullable reader with a delta and a base row. -/
theorem get_refines_spec_w :
    TypedColumnGet (α := Int) true
      ⟨[⟨2, some [false, true], [10, 20]⟩], 1, 1, [⟨[0], [25], some [false]⟩]⟩ 1 =
      specGet (α := Int) true
        ⟨[⟨2, some [false, true], [10, 20]⟩], 1, 1, [⟨[0], [25], some [false]⟩]⟩ 1 :=
  get_refines_spec true
    ⟨[⟨2, some [false, true], [10, 20]⟩], 1, 1, [⟨[0], [25], some [false]⟩]⟩ 1
    (fun h => Bool.noConfusion h)

lemma countP_prefix_char (p : Nat → Bool) (l : List Nat)
    (hmono : ∀ (i j : Nat) (hi : i < l.length) (hj : j < l.length),
      i ≤ j → p l[j] = true → p l[i] = true) :
    ∀ (i : Nat) (hi : i < l.length), (p l[i] = true ↔ i < l.countP p) := by
  induction l with
  | nil => intro i hi; simp at hi
  | cons a t ih =>
    intro i hi
    rw [List.countP_cons]
    by_cases ha : p a = true
    · rw [if_pos ha]
      cases i with
      | zero =>
        simp only [List.getElem_cons_zero, ha, true_iff]
        omega
      | succ k =>
        have hk : k < t.length := by simpa using hi
        have hmono' : ∀ (i j : Nat) (hi : i < t.length) (hj : j < t.length),
            i ≤ j → p t[j] = true → p t[i] = true := by
          intro i j hi' hj' hij hpj
          have := hmono (i + 1) (j + 1) (by simpa using hi') (by simpa using hj')
            (by omega) (by simpa using hpj)
          simpa using this
        have hk' := ih hmono' k hk
        simp only [List.getElem_cons_succ]
        rw [hk']
        omega
    · have hall : ∀ (j : Nat) (hj : j < (a :: t).length), ¬ p (a :: t)[j] = true := by
        intro j hj hpj
        exact ha (by simpa using hmono 0 j (by simp) hj (by omega) hpj)
      have hz : t.countP p = 0 := by
        rw [List.countP_eq_zero]
        intro x hx
        obtain ⟨j, hj, rfl⟩ := List.getElem_of_mem hx
        exact fun hpx => hall (j + 1) (by simpa using hj) (by simpa using hpx)
      rw [if_neg ha, hz]
      exact ⟨fun hpx => absurd hpx (hall i hi), by omega⟩

lemma sorted_getElem_le {l : List Nat} (hs : List.Pairwise (· < ·) l) (i j : Nat)
    (hi : i < l.length) (hj : j < l.length) (hij : i ≤ j) : l[i] ≤ l[j] := by
  rcases Nat.eq_or_lt_of_le hij with rfl | hlt
  · exact le_refl _
  · have := List.pairwise_iff_get.mp hs ⟨i, hi⟩ ⟨j, hj⟩ hlt
    simp only [List.get_eq_getElem] at this
    exact le_of_lt this

lemma shiftRight16_mono {a b : Nat} (h : a ≤ b) : a >>> 16 ≤ b >>> 16 := by
  rw [shiftRight16_eq_div, shiftRight16_eq_div]
  exact Nat.div_le_div_right h

lemma block_range_char {α : Type} (d : ColumnDelta α) (bid : Nat)
    (hs : List.Pairwise (· < ·) d.rids) (i : Nat) (hi : i < d.rids.length) :
    ((d.block_range bid).1 ≤ i ∧ i < (d.block_range bid).2) ↔
      d.rids[i] >>> 16 = bid := by
  unfold ColumnDelta.block_range
  have h1 := countP_prefix_char (fun r => decide (r >>> 16 < bid)) d.rids ?mlt i hi
  have h2 := countP_prefix_char (fun r => decide (r >>> 16 ≤ bid)) d.rids ?mle i hi
  case mlt =>
    intro i j hi' hj' hij hpj
    simp only [decide_eq_true_eq] at hpj ⊢
    have hle := shiftRight16_mono (sorted_getElem_le hs i j hi' hj' hij)
    omega
  case mle =>
    intro i j hi' hj' hij hpj
    simp only [decide_eq_true_eq] at hpj ⊢
    have hle := shiftRight16_mono (sorted_getElem_le hs i j hi' hj' hij)
    omega
  simp only [decide_eq_true_eq] at h1 h2
  omega

lemma countP_block_split (l : List Nat) (bid : Nat) :
    l.countP (fun r => decide (r >>> 16 ≤ bid)) =
      l.countP (fun r => decide (r >>> 16 < bid)) +
        l.countP (fun r => decide (r >>> 16 = bid)) := by
  induction l with
  | nil => rfl
  | cons a t ih =>
    simp only [List.countP_cons, ih]
    rcases Nat.lt_trichotomy (a >>> 16) bid with h | h | h
    · have h1 : decide (a >>> 16 ≤ bid) = true := by simp; omega
      have h2 : decide (a >>> 16 < bid) = true := by simp; omega
      have h3 : decide (a >>> 16 = bid) = false := by simp; omega
      rw [h1, h2, h3]
      simp
      omega
    · have h1 : decide (a >>> 16 ≤ bid) = true := by simp; omega
      have h2 : decide (a >>> 16 < bid) = false := by simp; omega
      have h3 : decide (a >>> 16 = bid) = true := by simp [h]
      rw [h1, h2, h3]
      simp
      omega
    · have h1 : decide (a >>> 16 ≤ bid) = false := by simp; omega
      have h2 : decide (a >>> 16 < bid) = false := by simp; omega
      have h3 : decide (a >>> 16 = bid) = false := by simp; omega
      rw [h1, h2, h3]
      simp

lemma contains_block_iff {α : Type} (d : ColumnDelta α) (bid : Nat) :
    d.contains_block bid = true ↔ ∃ r ∈ d.rids, r >>> 16 = bid := by
  unfold ColumnDelta.contains_block
  rw [bne_iff_ne]
  have hsplit := countP_block_split d.rids bid
  unfold ColumnDelta.block_range
  constructor
  · intro h
    have hpos : 0 < d.rids.countP (fun r => decide (r >>> 16 = bid)) := by omega
    obtain ⟨r, hr, hp⟩ := List.countP_pos_iff.mp hpos
    exact ⟨r, hr, by simpa using hp⟩
  · rintro ⟨r, hr, heq⟩
    have hpos : 0 < d.rids.countP (fun r => decide (r >>> 16 = bid)) :=
      List.countP_pos_iff.mpr ⟨r, hr, by simp [heq]⟩
    omega

lemma findIdx?_some_getElem {β : Type} (p : β → Bool) :
    ∀ (l : List β) (i : Nat), l.findIdx? p = some i →
      ∃ hi : i < l.length, p l[i] = true := by
  intro l
  induction l with
  | nil => intro i h; simp [List.findIdx?_nil] at h
  | cons a t ih =>
    intro i h
    rw [List.findIdx?_cons] at h
    by_cases ha : p a = true
    · rw [if_pos ha] at h
      obtain rfl : (0 : Nat) = i := by injection h
      exact ⟨by simp, by simpa using ha⟩
    · rw [if_neg ha, List.findIdx?_succ] at h
      cases hf : t.findIdx? p with
      | none => rw [hf] at h; simp at h
      | some k =>
        rw [hf] at h
        obtain rfl : k + 1 = i := by simpa using h
        obtain ⟨hk, hpk⟩ := ih k hf
        exact ⟨by simpa using Nat.succ_lt_succ hk, by simpa using hpk⟩

lemma find_idx_some {α : Type} (d : ColumnDelta α) (rid i : Nat)
    (h : d.find_idx rid = some i) : ∃ hi : i < d.rids.length, d.rids[i] = rid := by
  obtain ⟨hi, hp⟩ := findIdx?_some_getElem _ _ _ h
  exact ⟨hi, by simpa using hp⟩

lemma find_idx_none_not_mem {α : Type} (d : ColumnDelta α) (rid : Nat)
    (h : d.find_idx rid = none) : rid ∉ d.rids := by
  rw [ColumnDelta.find_idx, List.findIdx?_eq_none_iff] at h
  intro hmem
  simpa using h rid hmem

lemma scanDeltas_none_iff {α : Type} (ds : List (ColumnDelta α)) (rid : Nat) :
    scanDeltas ds rid = none ↔ ∀ d ∈ ds, d.find_idx rid = none := by
  induction ds with
  | nil => simp [scanDeltas]
  | cons d rest ih =>
    rw [scanDeltas]
    cases hs : scanDeltas rest rid with
    | some hit =>
      simp only [reduceCtorEq, false_iff, not_forall]
      have : ¬ ∀ d' ∈ rest, d'.find_idx rid = none := by
        rw [← ih]; simp [hs]
      push_neg at this
      obtain ⟨d', hd', hne⟩ := this
      exact ⟨d', by simp [hd'], hne⟩
    | none =>
      cases hfi : d.find_idx rid with
      | some pos =>
        simp only [reduceCtorEq, false_iff, not_forall]
        exact ⟨d, by simp, by simp [hfi]⟩
      | none =>
        simp only [true_iff]
        intro d' hd'
        rcases List.mem_cons.mp hd' with rfl | hmem
        · exact hfi
        · exact (ih.mp hs) d' hmem

lemma scanDeltas_some_mem {α : Type} (ds : List (ColumnDelta α)) (rid : Nat)
    (d : ColumnDelta α) (i : Nat) (h : scanDeltas ds rid = some (d, i)) :
    d ∈ ds ∧ d.find_idx rid = some i := by
  induction ds with
  | nil => simp [scanDeltas] at h
  | cons d0 rest ih =>
    rw [scanDeltas] at h
    cases hs : scanDeltas rest rid with
    | some hit =>
      rw [hs] at h
      obtain rfl : hit = (d, i) := by simpa using h
      obtain ⟨hmem, hfi⟩ := ih hs
      exact ⟨List.mem_cons_of_mem d0 hmem, hfi⟩
    | none =>
      rw [hs] at h
      cases hfi : d0.find_idx rid with
      | none => rw [hfi] at h; simp at h
      | some pos =>
        rw [hfi] at h
        simp at h
        obtain ⟨rfl, rfl⟩ := h
        exact ⟨List.mem_cons_self d0 rest, hfi⟩

lemma getD_set_ne {β : Type} (l : List β) (i j : Nat) (v : β) (dflt : β)
    (h : i ≠ j) : (l.set i v).getD j dflt = l.getD j dflt := by
  simp [List.getD_eq_getElem?_getD, List.getElem?_set_ne h]

lemma getD_set_self {β : Type} (l : List β) (i : Nat) (v : β) (dflt : β)
    (h : i < l.length) : (l.set i v).getD i dflt = v := by
  simp [List.getD_eq_getElem?_getD, List.getElem?_set_self h]

lemma getD_eq_getElem {β : Type} (l : List β) (i : Nat) (dflt : β)
    (h : i < l.length) : l.getD i dflt = l[i] := by
  simp [List.getD_eq_getElem?_getD, List.getElem?_eq_getElem h]

lemma patchStep_data_length {α : Type} [Inhabited α] (N : Bool) (d : ColumnDelta α)
    (cb : ColumnBlock α) (i : Nat) :
    (deltaPatchStep N d cb i).data.length = cb.data.length := by
  unfold deltaPatchStep ColumnBlock.writeData ColumnBlock.writeNull
  cases N with
  | false => simp
  | true =>
    cases hn : d.nulls with
    | none => simp
    | some ns =>
      by_cases h : ns[i]?.getD false = true <;>
        simp [List.getD_eq_getElem?_getD, h]

lemma patchStep_nulls_shape {α : Type} [Inhabited α] (N : Bool) (d : ColumnDelta α)
    (cb : ColumnBlock α) (i : Nat) :
    (deltaPatchStep N d cb i).nulls.map List.length = cb.nulls.map List.length := by
  unfold deltaPatchStep ColumnBlock.writeData ColumnBlock.writeNull
  cases N with
  | false => simp
  | true =>
    cases hn : d.nulls with
    | none => cases cb.nulls <;> simp
    | some ns =>
      by_cases h : ns[i]?.getD false = true <;> cases cb.nulls <;>
        simp [List.getD_eq_getElem?_getD, h]

lemma writeData_is_null {α : Type} (cb : ColumnBlock α) (p q : Nat) (v : α) :
    (cb.writeData p v).is_null q = cb.is_null q := rfl

lemma writeNull_data {α : Type} (cb : ColumnBlock α) (p : Nat) (b : Bool) :
    (cb.writeNull p b).data = cb.data := rfl

lemma writeNull_is_null_ne {α : Type} (cb : ColumnBlock α) (p q : Nat) (b : Bool)
    (h : p ≠ q) : (cb.writeNull p b).is_null q = cb.is_null q := by
  unfold ColumnBlock.writeNull ColumnBlock.is_null
  cases cb.nulls with
  | none => rfl
  | some ns => simpa using getD_set_ne ns p q b false h

lemma writeNull_is_null_self {α : Type} (cb : ColumnBlock α) (p : Nat) (b : Bool)
    (ns : List Bool) (hns : cb.nulls = some ns) (hlt : p < ns.length) :
    (cb.writeNull p b).is_null p = b := by
  unfold ColumnBlock.writeNull ColumnBlock.is_null
  rw [hns]
  simpa using getD_set_self ns p b false hlt

lemma writeData_getD_ne {α : Type} [Inhabited α] (cb : ColumnBlock α) (p q : Nat)
    (v : α) (h : p ≠ q) :
    (cb.writeData p v).data.getD q default = cb.data.getD q default :=
  getD_set_ne _ _ _ _ _ h

lemma writeData_getD_self {α : Type} [Inhabited α] (cb : ColumnBlock α) (p : Nat)
    (v : α) (h : p < cb.data.length) :
    (cb.writeData p v).data.getD p default = v :=
  getD_set_self _ _ _ _ h

lemma patchStep_untouched {α : Type} [Inhabited α] (N : Bool) (d : ColumnDelta α)
    (cb : ColumnBlock α) (i pos : Nat) (h : d.pos16 i ≠ pos) :
    (deltaPatchStep N d cb i).data.getD pos default = cb.data.getD pos default ∧
      (deltaPatchStep N d cb i).is_null pos = cb.is_null pos := by
  obtain ⟨rids, ddata, dnl⟩ := d
  cases N with
  | false =>
    exact ⟨writeData_getD_ne cb _ pos _ h, writeData_is_null cb _ pos _⟩
  | true =>
    cases dnl with
    | none =>
      simp only [deltaPatchStep, if_true]
      constructor
      · rw [writeData_getD_ne _ _ pos _ h, writeNull_data]
      · rw [writeData_is_null, writeNull_is_null_ne cb _ pos true h]
    | some nsd =>
      by_cases hf : nsd.getD i false = true
      · simp only [deltaPatchStep, if_true, if_pos hf]
        constructor
        · rw [writeNull_data]
        · exact writeNull_is_null_ne cb _ pos true h
      · simp only [deltaPatchStep, if_true, if_neg hf]
        constructor
        · rw [writeData_getD_ne _ _ pos _ h, writeNull_data]
        · rw [writeData_is_null, writeNull_is_null_ne cb _ pos false h]

lemma foldl_patch_untouched {α : Type} [Inhabited α] (N : Bool) (d : ColumnDelta α)
    (pos : Nat) (L : List Nat) :
    ∀ cb : ColumnBlock α, (∀ j ∈ L, d.pos16 j ≠ pos) →
      ((L.foldl (deltaPatchStep N d) cb).data.getD pos default =
          cb.data.getD pos default ∧
        (L.foldl (deltaPatchStep N d) cb).is_null pos = cb.is_null pos) := by
  induction L with
  | nil => intro cb _; exact ⟨rfl, rfl⟩
  | cons j rest ih =>
    intro cb hL
    rw [List.foldl_cons]
    have hstep := patchStep_untouched N d cb j pos (hL j (by simp))
    have hrest := ih (deltaPatchStep N d cb j) (fun j' hj' => hL j' (by simp [hj']))
    exact ⟨hrest.1.trans hstep.1, hrest.2.trans hstep.2⟩

lemma foldl_patch_data_length {α : Type} [Inhabited α] (N : Bool) (d : ColumnDelta α)
    (L : List Nat) :
    ∀ cb : ColumnBlock α,
      (L.foldl (deltaPatchStep N d) cb).data.length = cb.data.length := by
  induction L with
  | nil => intro cb; rfl
  | cons j rest ih =>
    intro cb
    rw [List.foldl_cons, ih, patchStep_data_length]

lemma foldl_patch_nulls_shape {α : Type} [Inhabited α] (N : Bool) (d : ColumnDelta α)
    (L : List Nat) :
    ∀ cb : ColumnBlock α,
      (L.foldl (deltaPatchStep N d) cb).nulls.map List.length =
        cb.nulls.map List.length := by
  induction L with
  | nil => intro cb; rfl
  | cons j rest ih =>
    intro cb
    rw [List.foldl_cons, ih, patchStep_nulls_shape]

lemma blockCell_congr {α : Type} [Inhabited α] (N : Bool) (cb1 cb2 : ColumnBlock α)
    (pos : Nat) (hdata : cb1.data.getD pos default = cb2.data.getD pos default)
    (hnull : cb1.is_null pos = cb2.is_null pos) :
    blockCell N cb1 pos = blockCell N cb2 pos := by
  unfold blockCell
  rw [hdata, hnull]

lemma patchStep_write {α : Type} [Inhabited α] (N : Bool) (d : ColumnDelta α)
    (cb : ColumnBlock α) (i : Nat) (hlen : d.pos16 i < cb.data.length)
    (hnul : N = true → ∃ ns, cb.nulls = some ns ∧ d.pos16 i < ns.length) :
    blockCell N (deltaPatchStep N d cb i) (d.pos16 i) = deltaPatchCell N d i := by
  obtain ⟨rids, ddata, dnl⟩ := d
  cases N with
  | false =>
    simp only [deltaPatchStep, blockCell, deltaPatchCell, Bool.false_eq_true, if_false]
    rw [writeData_getD_self cb _ _ hlen]
  | true =>
    obtain ⟨ns, hns, hlt⟩ := hnul rfl
    cases dnl with
    | none =>
      simp only [deltaPatchStep, blockCell, deltaPatchCell, if_true]
      rw [writeData_is_null, writeNull_is_null_self cb _ true ns hns hlt]
      simp
    | some nsd =>
      by_cases hf : nsd.getD i false = true
      · simp only [deltaPatchStep, blockCell, deltaPatchCell, if_true, if_pos hf]
        rw [writeNull_is_null_self cb _ true ns hns hlt]
        simp
      · simp only [deltaPatchStep, blockCell, deltaPatchCell, if_true, if_neg hf]
        rw [writeData_is_null, writeNull_is_null_self cb _ false ns hns hlt]
        simp only [Bool.false_eq_true, if_false]
        have hlen' : ColumnDelta.pos16 ⟨rids, ddata, some nsd⟩ i <
            (cb.writeNull (ColumnDelta.pos16 ⟨rids, ddata, some nsd⟩ i) false).data.length := by
          rw [writeNull_data]
          exact hlen
        rw [writeData_getD_self _ _ _ hlen']

lemma block_range_le {α : Type} (d : ColumnDelta α) (bid : Nat) :
    (d.block_range bid).1 ≤ (d.block_range bid).2 ∧
      (d.block_range bid).2 ≤ d.rids.length := by
  have hsplit := countP_block_split d.rids bid
  have hle := List.countP_le_length (fun r => decide (r >>> 16 ≤ bid))
    (l := d.rids)
  unfold ColumnDelta.block_range
  constructor
  · omega
  · exact hle

lemma applyBlockDelta_data_length {α : Type} [Inhabited α] (N : Bool) (blk : Nat)
    (cb : ColumnBlock α) (d : ColumnDelta α) :
    (applyBlockDelta N blk cb d).data.length = cb.data.length := by
  simp only [applyBlockDelta]
  by_cases h : (d.block_range blk).2 = (d.block_range blk).1
  · simp [h]
  · rw [if_neg h]
    exact foldl_patch_data_length N d _ cb

lemma applyBlockDelta_nulls_shape {α : Type} [Inhabited α] (N : Bool) (blk : Nat)
    (cb : ColumnBlock α) (d : ColumnDelta α) :
    (applyBlockDelta N blk cb d).nulls.map List.length = cb.nulls.map List.length := by
  simp only [applyBlockDelta]
  by_cases h : (d.block_range blk).2 = (d.block_range blk).1
  · simp [h]
  · rw [if_neg h]
    exact foldl_patch_nulls_shape N d _ cb

lemma applyBlockDelta_untouched {α : Type} [Inhabited α] (N : Bool)
    (d : ColumnDelta α) (cb : ColumnBlock α) (rid : Nat) (hWF : DeltaWF d)
    (hnone : d.find_idx rid = none) :
    (applyBlockDelta N (rid >>> 16) cb d).data.getD (rid &&& 65535) default =
        cb.data.getD (rid &&& 65535) default ∧
      (applyBlockDelta N (rid >>> 16) cb d).is_null (rid &&& 65535) =
        cb.is_null (rid &&& 65535) := by
  obtain ⟨hsorted, hdlen, hnlen⟩ := hWF
  simp only [applyBlockDelta]
  by_cases h : (d.block_range (rid >>> 16)).2 = (d.block_range (rid >>> 16)).1
  · simp [h]
  · rw [if_neg h]
    apply foldl_patch_untouched
    intro j hj
    rw [List.mem_range'_1] at hj
    obtain ⟨hsj, hje0⟩ := hj
    obtain ⟨hse, helen⟩ := block_range_le d (rid >>> 16)
    have hje : j < (d.block_range (rid >>> 16)).2 := by omega
    have hjlen : j < d.rids.length := by omega
    have hbj := (block_range_char d (rid >>> 16) hsorted j hjlen).mp ⟨hsj, hje⟩
    intro hpos
    have hp16 : d.pos16 j = d.rids[j] &&& 65535 := by
      unfold ColumnDelta.pos16
      rw [getD_eq_getElem _ _ _ hjlen]
    have heq : d.rids[j] = rid := eq_of_hi16_lo16 hbj (by rw [← hp16, hpos])
    exact find_idx_none_not_mem d rid hnone (heq ▸ List.getElem_mem hjlen)

lemma applyBlockDelta_write {α : Type} [Inhabited α] (N : Bool) (d : ColumnDelta α)
    (cb : ColumnBlock α) (rid i : Nat) (hWF : DeltaWF d)
    (hfi : d.find_idx rid = some i) (hlen : rid &&& 65535 < cb.data.length)
    (hnul : N = true → ∃ ns, cb.nulls = some ns ∧ rid &&& 65535 < ns.length) :
    blockCell N (applyBlockDelta N (rid >>> 16) cb d) (rid &&& 65535) =
      deltaPatchCell N d i := by
  obtain ⟨hsorted, hdlen, hnlen⟩ := hWF
  obtain ⟨hi, hri⟩ := find_idx_some d rid i hfi
  have hbi : d.rids[i] >>> 16 = rid >>> 16 := by rw [hri]
  have hrange := (block_range_char d (rid >>> 16) hsorted i hi).mpr hbi
  obtain ⟨hse, helen⟩ := block_range_le d (rid >>> 16)
  have hp16 : d.pos16 i = rid &&& 65535 := by
    unfold ColumnDelta.pos16
    rw [getD_eq_getElem _ _ _ hi, hri]
  simp only [applyBlockDelta]
  rw [if_neg (by omega :
    ¬ ((d.block_range (rid >>> 16)).2 = (d.block_range (rid >>> 16)).1))]
  have hsplit : List.range' (d.block_range (rid >>> 16)).1
      ((d.block_range (rid >>> 16)).2 - (d.block_range (rid >>> 16)).1) =
      List.range' (d.block_range (rid >>> 16)).1 (i - (d.block_range (rid >>> 16)).1) ++
        i :: List.range' (i + 1) ((d.block_range (rid >>> 16)).2 - i - 1) := by
    have h1 := List.range'_append (d.block_range (rid >>> 16)).1
      (i - (d.block_range (rid >>> 16)).1) ((d.block_range (rid >>> 16)).2 - i) 1
    rw [Nat.one_mul] at h1
    have e1 : (d.block_range (rid >>> 16)).1 + (i - (d.block_range (rid >>> 16)).1) = i := by
      omega
    have e2 : ((d.block_range (rid >>> 16)).2 - i) + (i - (d.block_range (rid >>> 16)).1) =
        (d.block_range (rid >>> 16)).2 - (d.block_range (rid >>> 16)).1 := by omega
    rw [e1, e2] at h1
    have e3 : (d.block_range (rid >>> 16)).2 - i = ((d.block_range (rid >>> 16)).2 - i - 1) + 1 := by
      omega
    rw [e3, List.range'_succ] at h1
    exact h1.symm
  rw [hsplit, List.foldl_append, List.foldl_cons]
  have hnotpos : ∀ j ∈ List.range' (i + 1) ((d.block_range (rid >>> 16)).2 - i - 1),
      d.pos16 j ≠ rid &&& 65535 := by
    intro j hj
    rw [List.mem_range'_1] at hj
    obtain ⟨h1j, h2j⟩ := hj
    have hje : j < (d.block_range (rid >>> 16)).2 := by omega
    have hjlen : j < d.rids.length := by omega
    have hbj := (block_range_char d (rid >>> 16) hsorted j hjlen).mp ⟨by omega, hje⟩
    have hij : d.rids[i] < d.rids[j] := by
      have := List.pairwise_iff_get.mp hsorted ⟨i, hi⟩ ⟨j, hjlen⟩
        (by exact Fin.mk_lt_mk.mpr (by omega))
      simpa using this
    intro hpos
    have hp16j : d.pos16 j = d.rids[j] &&& 65535 := by
      unfold ColumnDelta.pos16
      rw [getD_eq_getElem _ _ _ hjlen]
    have heq : d.rids[j] = rid := eq_of_hi16_lo16 hbj (by rw [← hp16j, hpos])
    rw [hri] at hij
    omega
  have hlenA : d.pos16 i <
      (List.foldl (deltaPatchStep N d) cb
        (List.range' (d.block_range (rid >>> 16)).1
          (i - (d.block_range (rid >>> 16)).1))).data.length := by
    rw [foldl_patch_data_length, hp16]
    exact hlen
  have hnulA : N = true →
      ∃ ns, (List.foldl (deltaPatchStep N d) cb
        (List.range' (d.block_range (rid >>> 16)).1
          (i - (d.block_range (rid >>> 16)).1))).nulls = some ns ∧
        d.pos16 i < ns.length := by
    intro hN
    obtain ⟨ns, hns, hlt⟩ := hnul hN
    have hshape := foldl_patch_nulls_shape N d
      (List.range' (d.block_range (rid >>> 16)).1
        (i - (d.block_range (rid >>> 16)).1)) cb
    rw [hns] at hshape
    cases hq : (List.foldl (deltaPatchStep N d) cb
        (List.range' (d.block_range (rid >>> 16)).1
          (i - (d.block_range (rid >>> 16)).1))).nulls with
    | none => rw [hq] at hshape; simp at hshape
    | some ns' =>
      rw [hq] at hshape
      have hlen2 : ns'.length = ns.length := by simpa using hshape
      exact ⟨ns', rfl, by rw [hp16]; omega⟩
  have hw := patchStep_write N d _ i hlenA hnulA
  rw [hp16] at hw
  have hfin := foldl_patch_untouched N d (rid &&& 65535)
    (List.range' (i + 1) ((d.block_range (rid >>> 16)).2 - i - 1))
    (deltaPatchStep N d
      (List.foldl (deltaPatchStep N d) cb
        (List.range' (d.block_range (rid >>> 16)).1
          (i - (d.block_range (rid >>> 16)).1))) i) hnotpos
  exact (blockCell_congr N _ _ _ hfin.1 hfin.2).trans hw

lemma foldl_apply_untouched {α : Type} [Inhabited α] (N : Bool) (rid : Nat)
    (ds : List (ColumnDelta α)) :
    ∀ cb : ColumnBlock α, (∀ d ∈ ds, DeltaWF d) →
      (∀ d ∈ ds, d.find_idx rid = none) →
      ((ds.foldl (applyBlockDelta N (rid >>> 16)) cb).data.getD (rid &&& 65535) default =
          cb.data.getD (rid &&& 65535) default ∧
        (ds.foldl (applyBlockDelta N (rid >>> 16)) cb).is_null (rid &&& 65535) =
          cb.is_null (rid &&& 65535)) := by
  induction ds with
  | nil => intro cb _ _; exact ⟨rfl, rfl⟩
  | cons d0 rest ih =>
    intro cb hWF hnone
    rw [List.foldl_cons]
    have hstep := applyBlockDelta_untouched N d0 cb rid (hWF d0 (by simp))
      (hnone d0 (by simp))
    have hrest := ih (applyBlockDelta N (rid >>> 16) cb d0)
      (fun d' hd' => hWF d' (by simp [hd'])) (fun d' hd' => hnone d' (by simp [hd']))
    exact ⟨hrest.1.trans hstep.1, hrest.2.trans hstep.2⟩

lemma matFold_cell {α : Type} [Inhabited α] (N : Bool) (rid : Nat)
    (ds : List (ColumnDelta α)) :
    ∀ (cb : ColumnBlock α) (d : ColumnDelta α) (i : Nat),
      (∀ d' ∈ ds, DeltaWF d') → scanDeltas ds rid = some (d, i) →
      rid &&& 65535 < cb.data.length →
      (N = true → ∃ ns, cb.nulls = some ns ∧ rid &&& 65535 < ns.length) →
      blockCell N (ds.foldl (applyBlockDelta N (rid >>> 16)) cb) (rid &&& 65535) =
        deltaPatchCell N d i := by
  induction ds with
  | nil => intro cb d i _ hscan; simp [scanDeltas] at hscan
  | cons d0 rest ih =>
    intro cb d i hWF hscan hlen hnul
    rw [List.foldl_cons]
    rw [scanDeltas] at hscan
    cases hs : scanDeltas rest rid with
    | some hit =>
      rw [hs] at hscan
      obtain rfl : hit = (d, i) := by simpa using hscan
      apply ih (applyBlockDelta N (rid >>> 16) cb d0) d i
        (fun d' hd' => hWF d' (by simp [hd'])) hs
      · rw [applyBlockDelta_data_length]
        exact hlen
      · intro hN
        obtain ⟨ns, hns, hlt⟩ := hnul hN
        have hshape := applyBlockDelta_nulls_shape N (rid >>> 16) cb d0
        rw [hns] at hshape
        cases hq : (applyBlockDelta N (rid >>> 16) cb d0).nulls with
        | none => rw [hq] at hshape; simp at hshape
        | some ns' =>
          rw [hq] at hshape
          have hlen2 : ns'.length = ns.length := by simpa using hshape
          exact ⟨ns', rfl, by omega⟩
    | none =>
      rw [hs] at hscan
      cases hfi : d0.find_idx rid with
      | none => rw [hfi] at hscan; simp at hscan
      | some pos =>
        rw [hfi] at hscan
        simp at hscan
        obtain ⟨rfl, rfl⟩ := hscan
        have hw := applyBlockDelta_write N d0 cb rid pos (hWF d0 (by simp)) hfi
          hlen hnul
        have hrest := foldl_apply_untouched N rid rest
          (applyBlockDelta N (rid >>> 16) cb d0)
          (fun d' hd' => hWF d' (by simp [hd']))
          ((scanDeltas_none_iff rest rid).mp hs)
        exact (blockCell_congr N _ _ _ hrest.1 hrest.2).trans hw

lemma copy_to_data_length {α : Type} [Inhabited α] (src dst : ColumnBlock α)
    (nrows : Nat) :
    (src.copy_to dst nrows).data.length = nrows + (dst.data.length - nrows) := by
  simp [ColumnBlock.copy_to]

lemma copy_to_nulls_some {α : Type} [Inhabited α] (src dst : ColumnBlock α)
    (nrows : Nat) (ns : List Bool) (h : dst.nulls = some ns) :
    (src.copy_to dst nrows).nulls =
      some (((List.range nrows).map (fun i => src.is_null i)) ++ ns.drop nrows) := by
  simp [ColumnBlock.copy_to, h]

lemma get_block_cell_core {α : Type} [Inhabited α] (N : Bool)
    (reader : TypedColumnReader α) (nrows rid : Nat) (cb0 : ColumnBlock α)
    (d : ColumnDelta α) (i : Nat) (hWF : ∀ d' ∈ reader.deltas, DeltaWF d')
    (hfound : scanDeltas reader.deltas rid = some (d, i))
    (hidx : rid &&& 65535 < nrows)
    (hn : N = true → ∃ ns, cb0.nulls = some ns) :
    blockCell N (reader.deltas.foldl (applyBlockDelta N (rid >>> 16))
      ((reader.base.getD (rid >>> 16) default).copy_to cb0 nrows)) (rid &&& 65535) =
      deltaPatchCell N d i := by
  apply matFold_cell N rid reader.deltas _ d i hWF hfound
  · rw [copy_to_data_length]
    omega
  · intro hN
    obtain ⟨ns, hns⟩ := hn hN
    rw [copy_to_nulls_some _ _ _ _ hns]
    refine ⟨_, rfl, ?_⟩
    simp only [List.length_append, List.length_map, List.length_range,
      List.length_drop]
    omega

lemma get_block_found_cell {α : Type} [Inhabited α] (Nullable : Bool)
    (reader : TypedColumnReader α) (nrows block rid : Nat)
    (cbh : ColumnBlockHolder α) (d : ColumnDelta α) (i : Nat)
    (hWF : ∀ d' ∈ reader.deltas, DeltaWF d') (hH : HolderWF cbh)
    (hb : rid >>> 16 = block) (hidx : rid &&& 65535 < nrows)
    (hfound : scanDeltas reader.deltas rid = some (d, i)) :
    blockCell Nullable (holderCB (get_block Nullable reader nrows block cbh).2)
      (rid &&& 65535) = deltaPatchCell Nullable d i := by
  subst hb
  obtain ⟨hmem, hfi⟩ := scanDeltas_some_mem reader.deltas rid d i hfound
  have hcontains : d.contains_block (rid >>> 16) = true := by
    rw [contains_block_iff]
    obtain ⟨hi, hri⟩ := find_idx_some d rid i hfi
    exact ⟨d.rids[i], List.getElem_mem hi, by rw [hri]⟩
  have hany : reader.deltas.any (fun d' => d'.contains_block (rid >>> 16)) = true :=
    List.any_eq_true.mpr ⟨d, hmem, hcontains⟩
  simp only [get_block, hany, Bool.not_true, Bool.false_eq_true, if_false]
  cases cbh with
  | uninit =>
    simp only [holderCB]
    exact get_block_cell_core Nullable reader nrows rid _ d i hWF hfound hidx
      (fun _ => ⟨List.replicate nrows false, rfl⟩)
  | init cb own =>
    cases own with
    | false =>
      simp only [holderCB]
      exact get_block_cell_core Nullable reader nrows rid _ d i hWF hfound hidx
        (fun _ => ⟨List.replicate nrows false, rfl⟩)
    | true =>
      by_cases hsz : cb.size < nrows
      · simp only [holderCB, if_pos hsz]
        exact get_block_cell_core Nullable reader nrows rid _ d i hWF hfound hidx
          (fun _ => ⟨List.replicate nrows false, rfl⟩)
      · simp only [holderCB, if_neg hsz]
        apply get_block_cell_core Nullable reader nrows rid cb d i hWF hfound hidx
        intro _
        obtain ⟨hdl, hnl⟩ := hH
        cases hq : cb.nulls with
        | none => rw [hq] at hnl; exact absurd hnl (by simp)
        | some ns => exact ⟨ns, rfl⟩

/-- Claim C4: `get_block` folds the deltas touching the block in
chronological (oldest-first) vector order, each one overwriting only its own
positions, so the logical cell (value / null flag) of any covered row in the
materialized block is decided solely by the MOST RECENT delta containing
that row (`scanDeltas`, the newest-to-oldest search used by `get`) — when
two deltas at different versions set the same row, the higher-version delta
wins. -/
theorem get_block_last_delta_wins {α : Type} [Inhabited α] (Nullable : Bool)
    (reader : TypedColumnReader α) (nrows block rid : Nat)
    (cbh : ColumnBlockHolder α) (d : ColumnDelta α) (i : Nat)
    (hWF : ∀ d' ∈ reader.deltas, DeltaWF d') (hH : HolderWF cbh)
    (hb : rid >>> 16 = block) (hidx : rid &&& 65535 < nrows)
    (hfound : scanDeltas reader.deltas rid = some (d, i)) :
    blockCell Nullable (holderCB (get_block Nullable reader nrows block cbh).2)
      (rid &&& 65535) = deltaPatchCell Nullable d i :=
  get_block_found_cell Nullable reader nrows block rid cbh d i hWF hH hb hidx hfound

/-- Witness for C4: two deltas (versions in vector order) both set row 1 of
block 0; the materialized cell shows the later delta's value 222 only. -/
theorem get_block_last_delta_wins_w :
    blockCell false
      (holderCB (get_block (α := Int) false
        ⟨[⟨2, none, [10, 20]⟩], 2, 2,
          [⟨[1], [111], none⟩, ⟨[1], [222], none⟩]⟩ 2 0
        ColumnBlockHolder.uninit).2) ((1 : Nat) &&& 65535) =
      deltaPatchCell false (⟨[1], [222], none⟩ : ColumnDelta Int) 0 :=
  get_block_last_delta_wins false
    ⟨[⟨2, none, [10, 20]⟩], 2, 2, [⟨[1], [111], none⟩, ⟨[1], [222], none⟩]⟩
    2 0 1 ColumnBlockHolder.uninit ⟨[1], [222], none⟩ 0
    (by
      intro d' hd'
      simp only [List.mem_cons, List.not_mem_nil, or_false] at hd'
      rcases hd' with rfl | rfl
      · exact ⟨by decide, by decide, trivial⟩
      · exact ⟨by decide, by decide, trivial⟩)
    trivial (by decide) (by decide) (by decide)

lemma copy_to_getD {α : Type} [Inhabited α] (src dst : ColumnBlock α)
    (nrows pos : Nat) (hpos : pos < nrows) :
    (src.copy_to dst nrows).data.getD pos default = src.data.getD pos default := by
  simp only [ColumnBlock.copy_to]
  rw [List.getD_eq_getElem?_getD, List.getElem?_append]
  rw [if_pos (by simp [hpos])]
  rw [List.getElem?_map, List.getElem?_range hpos]
  rfl

lemma copy_to_is_null {α : Type} [Inhabited α] (src dst : ColumnBlock α)
    (nrows pos : Nat) (hpos : pos < nrows) (ns : List Bool)
    (hns : dst.nulls = some ns) :
    (src.copy_to dst nrows).is_null pos = src.is_null pos := by
  unfold ColumnBlock.is_null
  rw [copy_to_nulls_some src dst nrows ns hns]
  show (List.map (fun i => src.is_null i) (List.range nrows) ++
    List.drop nrows ns).getD pos false = src.is_null pos
  rw [List.getD_eq_getElem?_getD, List.getElem?_append]
  rw [if_pos (by simp [hpos])]
  rw [List.getElem?_map, List.getElem?_range hpos]
  rfl

lemma get_block_unfound_cell_core {α : Type} [Inhabited α] (N : Bool)
    (reader : TypedColumnReader α) (nrows rid : Nat) (cb0 : ColumnBlock α)
    (hWF : ∀ d' ∈ reader.deltas, DeltaWF d')
    (hnone : ∀ d' ∈ reader.deltas, d'.find_idx rid = none)
    (hidx : rid &&& 65535 < nrows) (hn : N = true → ∃ ns, cb0.nulls = some ns) :
    blockCell N (reader.deltas.foldl (applyBlockDelta N (rid >>> 16))
      ((reader.base.getD (rid >>> 16) default).copy_to cb0 nrows)) (rid &&& 65535) =
      blockCell N (reader.base.getD (rid >>> 16) default) (rid &&& 65535) := by
  have hpres := foldl_apply_untouched N rid reader.deltas
    ((reader.base.getD (rid >>> 16) default).copy_to cb0 nrows) hWF hnone
  have hdata := copy_to_getD (reader.base.getD (rid >>> 16) default) cb0 nrows
    (rid &&& 65535) hidx
  cases N with
  | false =>
    unfold blockCell
    simp only [Bool.false_eq_true, if_false]
    rw [hpres.1, hdata]
  | true =>
    obtain ⟨ns, hns⟩ := hn rfl
    have hnull := copy_to_is_null (reader.base.getD (rid >>> 16) default) cb0 nrows
      (rid &&& 65535) hidx ns hns
    unfold blockCell
    simp only [if_true]
    rw [hpres.1, hpres.2, hdata, hnull]

/-- Restricted equivalence between point lookup and bulk materialization
(the spec's central invariant, section 8), proved for every reader state in
which each delta applied to a NULLABLE column carries a null buffer — the
configuration excluded here is exactly the one on which the code's
`get_block` line 163 diverges from `get` (see the divergence theorems): for
any row of the requested block, `get` returns the same logical cell the
materialized block holds at that row. -/
theorem get_agrees_with_get_block {α : Type} [Inhabited α] (Nullable : Bool)
    (reader : TypedColumnReader α) (nrows block rid : Nat)
    (cbh : ColumnBlockHolder α) (hWF : ∀ d' ∈ reader.deltas, DeltaWF d')
    (hH : HolderWF cbh) (hb : rid >>> 16 = block) (hidx : rid &&& 65535 < nrows)
    (hnb : Nullable = true → ∀ d ∈ reader.deltas, d.nulls ≠ none) :
    TypedColumnGet Nullable reader rid =
      blockCell Nullable (holderCB (get_block Nullable reader nrows block cbh).2)
        (rid &&& 65535) := by
  subst hb
  cases hscan : scanDeltas reader.deltas rid with
  | some hit =>
    obtain ⟨d, i⟩ := hit
    rw [get_block_found_cell Nullable reader nrows _ rid cbh d i hWF hH rfl hidx hscan]
    unfold TypedColumnGet
    rw [hscan]
    unfold deltaPatchCell ColumnDelta.isnullAt
    cases hN : Nullable with
    | false => simp
    | true =>
      have hmem := (scanDeltas_some_mem reader.deltas rid d i hscan).1
      have hne := hnb hN d hmem
      cases hq : d.nulls with
      | none => exact absurd hq hne
      | some ns => simp [hq]
  | none =>
    unfold TypedColumnGet
    rw [hscan]
    have hnone : ∀ d' ∈ reader.deltas, d'.find_idx rid = none :=
      (scanDeltas_none_iff _ _).mp hscan
    by_cases hany : reader.deltas.any (fun d' => d'.contains_block (rid >>> 16)) = true
    · simp only [get_block, hany, Bool.not_true, Bool.false_eq_true, if_false]
      have hbase : ∀ cb0 : ColumnBlock α,
          (Nullable = true → ∃ ns, cb0.nulls = some ns) →
          (if Nullable then
            if (reader.base.getD (rid >>> 16) default).is_null (rid &&& 65535) then
              (none : Option α)
            else some ((reader.base.getD (rid >>> 16) default).data.getD
              (rid &&& 65535) default)
          else some ((reader.base.getD (rid >>> 16) default).data.getD
            (rid &&& 65535) default)) =
          blockCell Nullable (reader.deltas.foldl (applyBlockDelta Nullable (rid >>> 16))
            ((reader.base.getD (rid >>> 16) default).copy_to cb0 nrows))
            (rid &&& 65535) := by
        intro cb0 hn
        rw [get_block_unfound_cell_core Nullable reader nrows rid cb0 hWF hnone hidx hn]
        unfold blockCell
        rfl
      cases cbh with
      | uninit =>
        simp only [holderCB]
        exact hbase _ (fun _ => ⟨List.replicate nrows false, rfl⟩)
      | init cb own =>
        cases own with
        | false =>
          simp only [holderCB]
          exact hbase _ (fun _ => ⟨List.replicate nrows false, rfl⟩)
        | true =>
          by_cases hsz : cb.size < nrows
          · simp only [holderCB, if_pos hsz]
            exact hbase _ (fun _ => ⟨List.replicate nrows false, rfl⟩)
          · simp only [holderCB, if_neg hsz]
            apply hbase cb
            intro _
            obtain ⟨hdl, hnl⟩ := hH
            cases hq : cb.nulls with
            | none => rw [hq] at hnl; exact absurd hnl (by simp)
            | some ns => exact ⟨ns, rfl⟩
    · have hany' : reader.deltas.any (fun d' => d'.contains_block (rid >>> 16)) = false := by
        simpa using hany
      simp only [get_block, hany', Bool.not_false, if_true, holderCB]
      unfold blockCell
      rfl

end DorisMemory
